import Mathlib

/-!
Verification of the `minstrel` note library (`src/note.rs`).

A `Note` wraps a single non-negative integer `value` (`usize` in the
source; embedded as `Nat`, with the partiality of unchecked `usize`
subtraction made explicit through `Option`).  Strings are embedded as
`List Char`.  The development embeds:

* the struct `Note` with its derived field-wise equality;
* `Note::from_str` (nom `alt` over the twelve name tags, then
  `usize::from_str` on the remainder);
* the `Display` implementation (plain and alternate `{:#}` modes);
* `Add<usize>`, `Sub<usize>`, `Sub<Note>` and the `NoteIter` iterator.
-/

namespace Minstrel

/-- The `Note` struct of `note.rs`: a single public `value : usize` field.
Rust derives `Eq, PartialEq, Clone, Copy` on it; the derived equality is
field-wise, which for a one-field struct coincides with Lean's structural
equality. -/
structure Note where
  value : Nat
deriving DecidableEq

/-- `Note::new`. -/
def Note.new (value : Nat) : Note := ⟨value⟩

/-- `Note::disregard_octave`: keep only `value % 12`. -/
def Note.disregard_octave (n : Note) : Note := ⟨n.value % 12⟩

/-- The two distinguishable failure modes of `Note::from_str`: the
`anyhow!("failed to parse note name")` error produced when no name tag
matches, and the `ParseIntError` propagated from `usize::from_str` on the
octave remainder.  The spec calls them `InvalidName` and `InvalidOctave`. -/
inductive ParseError where
  | invalidName
  | invalidOctave
deriving DecidableEq

/-- `nom`'s `tag t` applied to `s`: succeeds with the remaining input
exactly when `t` is a prefix of `s`. -/
def dropTag : List Char → List Char → Option (List Char)
  | [], s => some s
  | _ :: _, [] => none
  | t :: ts, c :: cs => if c = t then dropTag ts cs else none

/-- `nom`'s `alt` over a list of `(tag, pitch class)` alternatives, tried in
order; the first tag that is a prefix of the input wins. -/
def parseName : List (List Char × Nat) → List Char → Option (Nat × List Char)
  | [], _ => none
  | (t, pc) :: rest, s =>
    match dropTag t s with
    | some s2 => some (pc, s2)
    | none => parseName rest s

/-- The ordered alternative list of `Note::from_str`:
`C, Db, D, Eb, E, F, Gb, G, Ab, A, Bb, B`, each two-letter flat tag
listed before the natural that shares its first letter. -/
def noteTags : List (List Char × Nat) :=
  [(['C'], 0), (['D', 'b'], 1), (['D'], 2), (['E', 'b'], 3), (['E'], 4),
   (['F'], 5), (['G', 'b'], 6), (['G'], 7), (['A', 'b'], 8), (['A'], 9),
   (['B', 'b'], 10), (['B'], 11)]

/-- The numeric value of a digit character (`c as usize - '0' as usize`). -/
def charVal (c : Char) : Nat := c.toNat - 48

/-- The accumulator loop of Rust's unsigned integer parsing:
`acc = acc * 10 + digit` over the characters from the left. -/
def digitsVal (cs : List Char) : Nat :=
  cs.foldl (fun a c => a * 10 + charVal c) 0

/-- The digits phase of `usize::from_str`: at least one character and
every character a decimal digit, else failure.  Overflow of the 64-bit
range is not modelled; `value` is embedded as `Nat` throughout. -/
def parseDigits (cs : List Char) : Option Nat :=
  if cs ≠ [] ∧ cs.all Char.isDigit then some (digitsVal cs) else none

/-- `usize::from_str`: an optional single leading `'+'` sign followed by
one or more decimal digits.  (Rust's unsigned `FromStr` accepts a leading
`'+'` and rejects `'-'`.) -/
def parseUsize : List Char → Option Nat
  | [] => none
  | c :: cs => if c = '+' then parseDigits cs else parseDigits (c :: cs)

/-- `Note::from_str`: match a name tag (else `InvalidName`), then parse the
remainder as the octave — defaulting to `0` when the remainder is empty,
failing with `InvalidOctave` when non-empty and not `usize`-parsable —
and build `name + octave * 12`. -/
def Note.from_str (s : List Char) : Except ParseError Note :=
  match parseName noteTags s with
  | none => Except.error ParseError.invalidName
  | some (pc, rest) =>
    match (if rest.isEmpty then some 0 else parseUsize rest) with
    | none => Except.error ParseError.invalidOctave
    | some octave => Except.ok (Note.new (pc + octave * 12))

/-- `impl Add<usize> for Note`: `value + semitones`. -/
def Note.add (n : Note) (k : Nat) : Note := ⟨n.value + k⟩

/-- `impl Sub<usize> for Note`: the source computes the unchecked `usize`
difference `self.value - semitones`, which has no defined result when
`semitones > self.value` (panic in checked builds, wrap-around in
unchecked ones); that partiality is embedded as `none`.  No error value
of any kind is produced by the source: its output type is `Note`, not a
`Result`. -/
def Note.subSemitones (n : Note) (k : Nat) : Option Note :=
  if k ≤ n.value then some ⟨n.value - k⟩ else none

/-- `impl Sub for Note` (interval): match on `self.value.cmp(&other.value)`
and subtract the smaller from the larger. -/
def Note.subNote (a b : Note) : Nat :=
  match compare a.value b.value with
  | Ordering.gt => a.value - b.value
  | Ordering.lt => b.value - a.value
  | Ordering.eq => 0

/-- The digit-to-character map of Rust's decimal `Display` for `usize`
(`b'0' + d`), restricted to the ten decimal digits. -/
def digitChar : Nat → Char
  | 0 => '0'
  | 1 => '1'
  | 2 => '2'
  | 3 => '3'
  | 4 => '4'
  | 5 => '5'
  | 6 => '6'
  | 7 => '7'
  | 8 => '8'
  | 9 => '9'
  | _ => '*'

/-- Rust's decimal rendering of a `usize`: most significant digit first,
no sign, no leading zeros, and `"0"` for zero.  `Nat.digits 10 n` is the
little-endian digit list, so the rendering is its reverse. -/
def natToString (n : Nat) : List Char :=
  if n = 0 then ['0'] else (Nat.digits 10 n).reverse.map digitChar

/-- The name `match` of `impl fmt::Display for Note` on `value % 12`; the
source's `unreachable!()` default arm is embedded as `none`. -/
def fmtName (pc : Nat) : Option (List Char) :=
  match pc with
  | 0 => some ['C']
  | 1 => some ['D', 'b']
  | 2 => some ['D']
  | 3 => some ['E', 'b']
  | 4 => some ['E']
  | 5 => some ['F']
  | 6 => some ['G', 'b']
  | 7 => some ['G']
  | 8 => some ['A', 'b']
  | 9 => some ['A']
  | 10 => some ['B', 'b']
  | 11 => some ['B']
  | _ => none

/-- Plain `Display` mode (`{}`): the name alone. -/
def fmtPlain (n : Note) : Option (List Char) := fmtName (n.value % 12)

/-- Alternate `Display` mode (`{:#}`): the name followed by
`value / 12` in decimal. -/
def fmtAlternate (n : Note) : Option (List Char) :=
  (fmtName (n.value % 12)).map (fun nm => nm ++ natToString (n.value / 12))

/-- The `NoteIter` struct: current note and the `first` flag. -/
structure NoteIter where
  note : Note
  first : Bool

/-- `impl IntoIterator for Note`: start at the note with `first = true`. -/
def Note.into_iter (n : Note) : NoteIter := ⟨n, true⟩

/-- One step of `NoteIter::next`: on the first call yield the stored note
unmodified, afterwards increment `value` and yield the incremented note.
The iterator never terminates, so the step is total, returning the
yielded note together with the successor state. -/
def NoteIter.next (it : NoteIter) : Note × NoteIter :=
  if it.first then (it.note, ⟨it.note, false⟩)
  else (⟨it.note.value + 1⟩, ⟨⟨it.note.value + 1⟩, false⟩)

/-- The element produced by the `(k+1)`-st call to `next` (0-indexed). -/
def NoteIter.get : NoteIter → Nat → Note
  | it, 0 => (NoteIter.next it).1
  | it, k + 1 => NoteIter.get (NoteIter.next it).2 k

/-- Syntactic shape of a remainder accepted by `usize::from_str`:
either one or more decimal digits, or a single leading `'+'` followed by
one or more decimal digits. -/
def goodOctave : List Char → Bool
  | [] => false
  | c :: cs =>
    if c = '+' then !cs.isEmpty && cs.all Char.isDigit
    else (c :: cs).all Char.isDigit

/-- Modelled from the spec: `note.rs` derives only `Eq`/`PartialEq` for
`Note` and contains no `Ord`/`PartialOrd` implementation; the ordering
the spec describes ("ordering is defined purely on `value`") is modelled
as comparison of the `value` fields. -/
def noteLt (a b : Note) : Bool := decide (a.value < b.value)

/-! ## Helper lemmas -/

/-- Unfolding `Note::from_str` after the name alternatives matched. -/
lemma from_str_eq (s : List Char) (pc : Nat) (rest : List Char)
    (h : parseName noteTags s = some (pc, rest)) :
    Note.from_str s =
      match (if rest.isEmpty then some 0 else parseUsize rest) with
      | none => Except.error ParseError.invalidOctave
      | some octave => Except.ok (Note.new (pc + octave * 12)) := by
  rw [Note.from_str, h]

lemma charVal_digitChar (d : Nat) (h : d < 10) : charVal (digitChar d) = d := by
  interval_cases d <;> rfl

lemma isDigit_digitChar (d : Nat) (h : d < 10) : (digitChar d).isDigit = true := by
  interval_cases d <;> decide

/-- The left fold of the parsing loop over a reversed digit list recovers
the little-endian digit value. -/
lemma foldl_rev_digits (ds : List Nat) (h : ∀ d ∈ ds, d < 10) (a : Nat) :
    List.foldl (fun x c => x * 10 + charVal c) a (ds.reverse.map digitChar)
      = a * 10 ^ ds.length + Nat.ofDigits 10 ds := by
  induction ds generalizing a with
  | nil => simp [Nat.ofDigits]
  | cons d t ih =>
    have hd : d < 10 := h d (List.mem_cons_self d t)
    have ht : ∀ x ∈ t, x < 10 := fun x hx => h x (List.mem_cons_of_mem d hx)
    simp only [List.reverse_cons, List.map_append, List.foldl_append, ih ht a,
      List.map_cons, List.map_nil, List.foldl_cons, List.foldl_nil,
      charVal_digitChar d hd, Nat.ofDigits_cons, List.length_cons]
    ring

lemma natToString_ne_nil (n : Nat) : natToString n ≠ [] := by
  by_cases h : n = 0
  · simp [natToString, h]
  · simp only [natToString, if_neg h]
    intro hc
    rw [List.map_eq_nil_iff, List.reverse_eq_nil_iff] at hc
    exact (Nat.digits_ne_nil_iff_ne_zero.mpr h) hc

lemma natToString_all_digits (n : Nat) :
    (natToString n).all Char.isDigit = true := by
  by_cases h : n = 0
  · simp [natToString, h]
  · simp only [natToString, if_neg h, List.all_eq_true]
    intro c hc
    rw [List.mem_map] at hc
    obtain ⟨d, hd, rfl⟩ := hc
    rw [List.mem_reverse] at hd
    exact isDigit_digitChar d (Nat.digits_lt_base (by norm_num) hd)

/-- Parsing back the decimal rendering of `n` recovers `n`. -/
lemma parseDigits_natToString (n : Nat) :
    parseDigits (natToString n) = some n := by
  rw [parseDigits, if_pos ⟨natToString_ne_nil n, natToString_all_digits n⟩]
  congr 1
  by_cases h : n = 0
  · simp [natToString, h, digitsVal, charVal]
  · rw [natToString, if_neg h, digitsVal,
      foldl_rev_digits _ (fun d hd => Nat.digits_lt_base (by norm_num) hd) 0,
      Nat.ofDigits_digits, zero_mul, zero_add]

lemma natToString_head (n : Nat) :
    ∃ c cs, natToString n = c :: cs ∧ c.isDigit = true := by
  obtain ⟨c, cs, hc⟩ := List.exists_cons_of_ne_nil (natToString_ne_nil n)
  refine ⟨c, cs, hc, ?_⟩
  have h := natToString_all_digits n
  rw [hc, List.all_cons, Bool.and_eq_true] at h
  exact h.1

lemma parseUsize_natToString (n : Nat) :
    parseUsize (natToString n) = some n := by
  obtain ⟨c, cs, hc, hdig⟩ := natToString_head n
  have hplus : ¬(c = '+') := by
    rintro rfl
    exact absurd hdig (by decide)
  rw [hc, parseUsize, if_neg hplus, ← hc]
  exact parseDigits_natToString n

/-- For every pitch class `pc < 12`, `fmtName` yields a name, and the
tag alternatives parse that name back to exactly `pc` whenever the next
character cannot extend the name to a flat (is not `'b'`). -/
lemma parseName_fmtName (pc : Nat) (h : pc < 12) (c : Char) (cs : List Char)
    (hb : ¬(c = 'b')) :
    ∃ nm, fmtName pc = some nm ∧
      parseName noteTags (nm ++ c :: cs) = some (pc, c :: cs) := by
  interval_cases pc <;>
    exact ⟨_, rfl, by simp [parseName, noteTags, dropTag, hb]⟩

/-- The interval `match` computes the absolute difference of the values. -/
lemma subNote_eq_natAbs (a b : Note) :
    Note.subNote a b = ((a.value : Int) - (b.value : Int)).natAbs := by
  rcases Nat.lt_trichotomy a.value b.value with h | h | h
  · simp only [Note.subNote, Nat.compare_eq_lt.mpr h]; omega
  · simp only [Note.subNote, h, Nat.compare_eq_eq.mpr rfl]; omega
  · simp only [Note.subNote, Nat.compare_eq_gt.mpr h]; omega

lemma get_after_first (m k : Nat) :
    NoteIter.get ⟨⟨m⟩, false⟩ k = ⟨m + 1 + k⟩ := by
  induction k generalizing m with
  | zero => rfl
  | succ k ih =>
    show NoteIter.get ⟨⟨m + 1⟩, false⟩ k = _
    rw [ih (m + 1)]
    congr 1
    omega

lemma get_into_iter (n : Note) (k : Nat) :
    NoteIter.get (Note.into_iter n) k = ⟨n.value + k⟩ := by
  cases k with
  | zero => rfl
  | succ k =>
    show NoteIter.get ⟨n, false⟩ k = _
    cases n with
    | mk v =>
      rw [get_after_first v k]
      simp only [Note.mk.injEq]
      omega

lemma parseDigits_isSome (cs : List Char) :
    (parseDigits cs).isSome = (!cs.isEmpty && cs.all Char.isDigit) := by
  cases cs with
  | nil => rfl
  | cons c cs' =>
    by_cases h : (c :: cs').all Char.isDigit
    · simp [parseDigits, h]
    · simp [parseDigits, h]

lemma parseUsize_isSome (cs : List Char) :
    (parseUsize cs).isSome = goodOctave cs := by
  cases cs with
  | nil => rfl
  | cons c cs' =>
    by_cases hc : c = '+'
    · rw [parseUsize, goodOctave, if_pos hc, if_pos hc, parseDigits_isSome]
    · rw [parseUsize, goodOctave, if_neg hc, if_neg hc, parseDigits_isSome]
      simp

/-! ## Claim theorems -/

/-- Claim C1: for every non-negative `v`, the octave-inclusive rendering
of `Note::new v` is defined and parsing it back with `Note::from_str`
yields exactly `Note::new v`. -/
theorem display_roundtrip (v : Nat) :
    ∃ s, fmtAlternate (Note.new v) = some s ∧
      Note.from_str s = Except.ok (Note.new v) := by
  obtain ⟨c, cs, hsplit, hdig⟩ := natToString_head (v / 12)
  have hb : ¬(c = 'b') := by rintro rfl; exact absurd hdig (by decide)
  have hval : parseUsize (c :: cs) = some (v / 12) := by
    rw [← hsplit]; exact parseUsize_natToString (v / 12)
  have h12 : v % 12 < 12 := Nat.mod_lt v (by norm_num)
  obtain ⟨nm, hnm, hparse⟩ := parseName_fmtName (v % 12) h12 c cs hb
  refine ⟨nm ++ c :: cs, ?_, ?_⟩
  · simp [fmtAlternate, Note.new, hnm, hsplit]
  · rw [from_str_eq _ _ _ hparse]
    simp only [List.isEmpty_cons, Bool.false_eq_true, if_false, hval]
    have hv : v % 12 + v / 12 * 12 = v := by omega
    rw [hv]

/-- Claim C2, counterexample: at `Note::new 0 - 1` the source's
`Sub<usize>` implementation performs an unchecked `usize` subtraction
with no defined result (embedded as `none`); no recoverable
`ArithmeticUnderflow` error value is returned to the caller — the
implementation's output type is `Note`, with no error channel at all. -/
theorem sub_usize_underflow_cex : Note.subSemitones (Note.new 0) 1 = none := rfl

/-- Claim C2, amended: for `k ≤ n.value`, `Note - k` returns the note
with value `n.value - k`; for `k > n.value` the unchecked subtraction
underflows and has no defined result (panic in checked builds,
wrap-around in release), rather than returning a typed error. -/
theorem sub_usize_semantics (n : Note) (k : Nat) :
    (k ≤ n.value → Note.subSemitones n k = some (Note.new (n.value - k))) ∧
    (n.value < k → Note.subSemitones n k = none) := by
  constructor
  · intro h; rw [Note.subSemitones, if_pos h]; rfl
  · intro h; rw [Note.subSemitones, if_neg (by omega)]

/-- Claim C2, witness: both branches of the amended statement evaluated
at concrete inputs. -/
theorem sub_usize_semantics_witness :
    Note.subSemitones (Note.new 5) 2 = some (Note.new 3) ∧
    Note.subSemitones (Note.new 0) 1 = none :=
  ⟨(sub_usize_semantics (Note.new 5) 2).1 (by decide),
   (sub_usize_semantics (Note.new 0) 1).2 (by decide)⟩

/-- Claim C3, counterexample: parsing `"Cb2"` does not produce the
`InvalidName` failure: the alternative `tag "C"` matches the prefix, and
the failure comes from `usize::from_str` on the remainder `"b2"` — the
`InvalidOctave` failure. -/
theorem parse_Cb2_cex :
    Note.from_str ['C', 'b', '2'] = Except.error ParseError.invalidOctave ∧
    Note.from_str ['C', 'b', '2'] ≠ Except.error ParseError.invalidName := by
  refine ⟨rfl, ?_⟩
  intro h
  have h0 : (Except.error ParseError.invalidOctave : Except ParseError Note)
      = Except.error ParseError.invalidName := h
  simp at h0

/-- Claim C3, amended: `parse("Cb2")` fails with `InvalidOctave` (the
name matcher succeeds on the prefix `"C"` and the remainder `"b2"` fails
octave parsing), and `parse("Gb-2")` fails with `InvalidOctave`. -/
theorem parse_invalid_inputs :
    Note.from_str ['C', 'b', '2'] = Except.error ParseError.invalidOctave ∧
    Note.from_str ['G', 'b', '-', '2'] = Except.error ParseError.invalidOctave :=
  ⟨rfl, rfl⟩

/-- Claim C4, counterexample: `parse("C+5")` succeeds with value `60`
although the remainder `"+5"` after the matched name is non-empty, is
not solely decimal digits, and contains the sign character `'+'`;
`usize::from_str` accepts one leading `'+'`. -/
theorem parse_plus_sign_cex :
    Note.from_str ['C', '+', '5'] = Except.ok (Note.new 60) ∧
    Note.from_str ['C', '+', '5'] ≠ Except.error ParseError.invalidOctave := by
  refine ⟨rfl, ?_⟩
  intro h
  have h0 : (Except.ok (Note.new 60) : Except ParseError Note)
      = Except.error ParseError.invalidOctave := h
  simp at h0

/-- Claim C4, amended: once a note name has matched, parsing succeeds
exactly when the remainder is empty or is accepted by Rust's unsigned
integer parsing — one or more decimal digits, optionally preceded by a
single `'+'` sign; every other non-empty remainder (including any
containing `'-'`) fails with `InvalidOctave`. -/
theorem from_str_remainder_characterization (s : List Char) (pc : Nat)
    (rest : List Char) (h : parseName noteTags s = some (pc, rest)) :
    ((∃ v, Note.from_str s = Except.ok v) ↔
      (rest.isEmpty || goodOctave rest) = true) ∧
    ((rest.isEmpty || goodOctave rest) = false →
      Note.from_str s = Except.error ParseError.invalidOctave) := by
  rw [from_str_eq _ _ _ h]
  by_cases he : rest.isEmpty = true
  · have hif : (if rest.isEmpty then some 0 else parseUsize rest) = some 0 := by
      rw [he]; rfl
    rw [hif]
    simp [he]
  · have hif : (if rest.isEmpty then some 0 else parseUsize rest)
        = parseUsize rest := by simp [he]
    rw [hif]
    cases hP : parseUsize rest with
    | none =>
      have hg : goodOctave rest = false := by rw [← parseUsize_isSome, hP]; rfl
      simp [he, hg]
    | some o =>
      have hg : goodOctave rest = true := by rw [← parseUsize_isSome, hP]; rfl
      simp [he, hg]

/-- Claim C4, witness: at the input `"Cx"` the name matches with
remainder `"x"`, which is neither empty nor acceptable to
`usize::from_str`, and parsing fails with `InvalidOctave`. -/
theorem from_str_remainder_characterization_witness :
    Note.from_str ['C', 'x'] = Except.error ParseError.invalidOctave :=
  (from_str_remainder_characterization ['C', 'x'] 0 ['x'] rfl).2 rfl

/-- Claim C5: the two-letter flat tags take precedence over the naturals
sharing their first letter; an empty remainder defaults the octave to 0;
a parsed octave `o` yields value `pc + o * 12`; and the concrete inputs
`"Ab"`, `"C0"`, `"Bb10"` parse to values 8, 0 and 130. -/
theorem parse_semantics :
    (∀ s, parseName noteTags ('D' :: 'b' :: s) = some (1, s)) ∧
    (∀ s, parseName noteTags ('E' :: 'b' :: s) = some (3, s)) ∧
    (∀ s, parseName noteTags ('G' :: 'b' :: s) = some (6, s)) ∧
    (∀ s, parseName noteTags ('A' :: 'b' :: s) = some (8, s)) ∧
    (∀ s, parseName noteTags ('B' :: 'b' :: s) = some (10, s)) ∧
    (∀ s pc rest, parseName noteTags s = some (pc, rest) → rest.isEmpty = true →
      Note.from_str s = Except.ok (Note.new (pc + 0 * 12))) ∧
    (∀ s pc rest o, parseName noteTags s = some (pc, rest) →
      parseUsize rest = some o →
      Note.from_str s = Except.ok (Note.new (pc + o * 12))) ∧
    Note.from_str ['A', 'b'] = Except.ok (Note.new 8) ∧
    Note.from_str ['C', '0'] = Except.ok (Note.new 0) ∧
    Note.from_str ['B', 'b', '1', '0'] = Except.ok (Note.new 130) := by
  refine ⟨fun s => by simp [parseName, noteTags, dropTag],
    fun s => by simp [parseName, noteTags, dropTag],
    fun s => by simp [parseName, noteTags, dropTag],
    fun s => by simp [parseName, noteTags, dropTag],
    fun s => by simp [parseName, noteTags, dropTag],
    ?_, ?_, rfl, rfl, rfl⟩
  · intro s pc rest h he
    rw [from_str_eq _ _ _ h, he]
    rfl
  · intro s pc rest o h hP
    by_cases he : rest.isEmpty = true
    · rw [List.isEmpty_iff] at he
      subst he
      cases hP
    · rw [from_str_eq _ _ _ h]
      have hif : (if rest.isEmpty then some 0 else parseUsize rest)
          = parseUsize rest := by simp [he]
      rw [hif, hP]

/-- Claim C5, witness: the flat-precedence clause and both octave clauses
evaluated at concrete inputs. -/
theorem parse_semantics_witness :
    parseName noteTags ('D' :: 'b' :: ['3']) = some (1, ['3']) ∧
    Note.from_str ['A', 'b'] = Except.ok (Note.new (8 + 0 * 12)) ∧
    Note.from_str ['D', 'b', '3'] = Except.ok (Note.new (1 + 3 * 12)) :=
  ⟨parse_semantics.1 ['3'],
   parse_semantics.2.2.2.2.2.1 ['A', 'b'] 8 [] rfl rfl,
   parse_semantics.2.2.2.2.2.2.1 ['D', 'b', '3'] 1 ['3'] 3 rfl rfl⟩

/-- Claim C6: the interval `Note - Note` equals the absolute difference
of the values, is symmetric, and is zero on equal arguments. -/
theorem interval_semantics (a b : Note) :
    Note.subNote a b = ((a.value : Int) - (b.value : Int)).natAbs ∧
    Note.subNote a b = Note.subNote b a ∧
    Note.subNote a a = 0 := by
  refine ⟨subNote_eq_natAbs a b, ?_, ?_⟩
  · rw [subNote_eq_natAbs, subNote_eq_natAbs]; omega
  · rw [subNote_eq_natAbs]; omega

/-- Claim C7: transposing up by `k` semitones and then down by `k`
returns the original note (the downward step is defined, since the
subtraction cannot underflow). -/
theorem transpose_consistency (n : Note) (k : Nat) :
    Note.subSemitones (Note.add n k) k = some n := by
  simp [Note.subSemitones, Note.add]

/-- Claim C8: the iterator yields the starting note itself, unmodified,
as its first element; every subsequent element has value exactly one
greater than its predecessor; and the 13th element starting from value 5
is the note with value 17. -/
theorem enumeration_semantics :
    (∀ n : Note, NoteIter.get (Note.into_iter n) 0 = n) ∧
    (∀ (n : Note) (k : Nat),
      (NoteIter.get (Note.into_iter n) (k + 1)).value
        = (NoteIter.get (Note.into_iter n) k).value + 1) ∧
    NoteIter.get (Note.into_iter (Note.new 5)) 12 = Note.new 17 := by
  refine ⟨fun n => rfl, fun n k => ?_, rfl⟩
  rw [get_into_iter, get_into_iter]
  simp only []
  omega

/-- Claim C9: two notes are equal exactly when their values are equal
(the derived field-wise equality of the one-field struct), and — with
the ordering modelled from the spec, the source deriving no
`Ord`/`PartialOrd` — a note is ordered before another exactly when its
value is smaller. -/
theorem eq_and_ordering_on_value (a b : Note) :
    (a = b ↔ a.value = b.value) ∧ (noteLt a b = true ↔ a.value < b.value) := by
  constructor
  · constructor
    · intro h; rw [h]
    · intro h; cases a; cases b; simpa using h
  · simp [noteLt]

/-- Claim C10: formatting is total: `value % 12` always lies below 12, so
the name `match` never reaches its `unreachable!()` default arm (embedded
as `none`), in the plain mode as well as the octave-inclusive one. -/
theorem display_total (n : Note) :
    (∃ s, fmtName (n.value % 12) = some s) ∧
    (∃ s, fmtPlain n = some s) ∧
    (∃ s, fmtAlternate n = some s) := by
  have h12 : n.value % 12 < 12 := Nat.mod_lt _ (by norm_num)
  obtain ⟨nm, hnm, -⟩ := parseName_fmtName (n.value % 12) h12 '0' [] (by decide)
  exact ⟨⟨nm, hnm⟩, ⟨nm, hnm⟩,
    ⟨nm ++ natToString (n.value / 12), by simp [fmtAlternate, hnm]⟩⟩

end Minstrel
